import Mathlib

/-!
Verification development for the vinyl-scraper repository.

Strings are modelled as lists of Unicode code points (`List Nat`); numbers as
`Nat`; timestamps (`new Date()`) as an abstract `Nat` clock value supplied to
the pass.  The definitions below are shallow embeddings of the TypeScript
source: `src/utils/stringNormalizer.ts`, `src/index.ts`
(`VinylScraper.scrapeVinyl`, `VinylScraper.isRelevantListing`) and
`src/services/database/DatabaseService.ts`.
-/

namespace VinylScraper

/-- The set of code points matched by the JavaScript regexp `\s` (and trimmed
by `String.prototype.trim`): tab, line feed, vertical tab, form feed, carriage
return, space, no-break space, ogham space mark, the en-quad..hair-space range,
line separator, paragraph separator, narrow no-break space, medium mathematical
space, ideographic space and the BOM. -/
def isWs (n : Nat) : Bool :=
  decide (n = 9 ∨ n = 10 ∨ n = 11 ∨ n = 12 ∨ n = 13 ∨ n = 32 ∨ n = 160 ∨
    n = 0x1680 ∨ (0x2000 ≤ n ∧ n ≤ 0x200a) ∨ n = 0x2028 ∨ n = 0x2029 ∨
    n = 0x202f ∨ n = 0x205f ∨ n = 0x3000 ∨ n = 0xfeff)

/-- Per-code-point lowercasing, modelling `String.prototype.toLowerCase` on the
ASCII range (the only range the repository's data exercises): `A`–`Z` map to
`a`–`z`, everything else is fixed. -/
def jsLower (n : Nat) : Nat :=
  if 65 ≤ n ∧ n ≤ 90 then n + 32 else n

/-- `String.prototype.trim`: drop leading and trailing whitespace. -/
def jsTrim (s : List Nat) : List Nat :=
  ((s.dropWhile isWs).reverse.dropWhile isWs).reverse

/-- `replace(/\s+/g, ' ')`: each maximal run of whitespace becomes a single
space.  The boolean flag records whether the previously read code point was
whitespace (so that the run emits only one space). -/
def collapseWs : Bool → List Nat → List Nat
  | _, [] => []
  | prevWs, c :: cs =>
    if isWs c then
      if prevWs then collapseWs true cs else 32 :: collapseWs true cs
    else
      c :: collapseWs false cs

/-- `normalizeString` from `src/utils/stringNormalizer.ts`:
`str.trim().toLowerCase().replace(/\s+/g, ' ')`. -/
def normalizeString (s : List Nat) : List Nat :=
  collapseWs false ((jsTrim s).map jsLower)

/-- `String.prototype.includes`: substring test, used by
`isRelevantListing`.  `jsIncludes hay needle` checks whether `needle` occurs
contiguously inside `hay`. -/
def jsIncludes : List Nat → List Nat → Bool
  | hay, needle =>
    needle.isPrefixOf hay ||
      (match hay with
       | [] => false
       | _ :: t => jsIncludes t needle)

/-- Decimal rendering of a natural number, modelling the `${price}` template
interpolation inside `createUniqueKey` (prices are modelled as naturals). -/
def natCodes (n : Nat) : List Nat :=
  (Nat.toDigits 10 n).map Char.toNat

/-- UTF-8 encoding of one code point (the byte sequence produced by
`Buffer.from(str)` for that character). -/
def utf8Char (n : Nat) : List Nat :=
  if n < 0x80 then [n]
  else if n < 0x800 then [0xc0 + n / 64, 0x80 + n % 64]
  else if n < 0x10000 then [0xe0 + n / 4096, 0x80 + n / 64 % 64, 0x80 + n % 64]
  else [0xf0 + n / 262144, 0x80 + n / 4096 % 64, 0x80 + n / 64 % 64, 0x80 + n % 64]

/-- UTF-8 encoding of a whole string (`Buffer.from(normalizedData)`). -/
def utf8Bytes (s : List Nat) : List Nat :=
  s.flatMap utf8Char

/-- The base64 alphabet: index 0–63 to the code point of the corresponding
character (`A`–`Z`, `a`–`z`, `0`–`9`, `+`, `/`). -/
def b64Char (n : Nat) : Nat :=
  if n < 26 then 65 + n
  else if n < 52 then 71 + n
  else if n < 62 then n - 4
  else if n = 62 then 43
  else 47

/-- Standard base64 encoding of a byte sequence
(`Buffer.prototype.toString('base64')`); `61` is the code of the padding
character `=`. -/
def base64Encode : List Nat → List Nat
  | b₁ :: b₂ :: b₃ :: rest =>
    b64Char (b₁ / 4) :: b64Char (b₁ % 4 * 16 + b₂ / 16) ::
      b64Char (b₂ % 16 * 4 + b₃ / 64) :: b64Char (b₃ % 64) :: base64Encode rest
  | [b₁, b₂] =>
    [b64Char (b₁ / 4), b64Char (b₁ % 4 * 16 + b₂ / 16), b64Char (b₂ % 16 * 4), 61]
  | [b₁] =>
    [b64Char (b₁ / 4), b64Char (b₁ % 4 * 16), 61, 61]
  | [] => []

/-- `createUniqueKey` from `src/utils/stringNormalizer.ts`:
base64 of the UTF-8 bytes of
`` `${normalizeString(seller)}-${price}-${normalizeString(title)}` ``. -/
def createUniqueKey (seller : List Nat) (price : Nat) (title : List Nat) : List Nat :=
  base64Encode (utf8Bytes
    (normalizeString seller ++ [45] ++ natCodes price ++ [45] ++ normalizeString title))

/-- The `VinylListing` interface from `src/models/VinylListing.ts`.  Strings
are code-point lists, dates are abstract timestamps, `price`/`shippingFee` are
naturals. -/
structure VinylListing where
  id : List Nat
  title : List Nat
  titleDisplay : List Nat
  artist : List Nat
  artistDisplay : List Nat
  price : Nat
  currency : List Nat
  condition : List Nat
  shippingFee : Option Nat
  seller : List Nat
  sellerDisplay : List Nat
  url : List Nat
  source : List Nat
  dateFound : Nat
  lastSeen : Nat
  isShipsToIsrael : Bool
  uniqueKey : List Nat
  isActive : Bool
deriving DecidableEq

/-- The `PriceHistory` interface from `src/models/VinylListing.ts` (the
autoincrement `id` column is omitted; rows are identified by position). -/
structure PriceHistory where
  listingId : List Nat
  price : Nat
  dateRecorded : Nat
deriving DecidableEq

/-- The preference `type` column: `'artist' | 'genre' | 'album'`. -/
inductive PrefType where
  | artist
  | genre
  | album
deriving DecidableEq

/-- A row of the `user_preferences` table (`UserPreferenceRecord`). -/
structure UserPreferenceRecord where
  type : PrefType
  value : List Nat
  createdAt : Nat
deriving DecidableEq

/-- The persistent state managed by `DatabaseService`: the `vinyl_listings`
and `price_history` tables (rows in insertion order) and the
`user_preferences` table. -/
structure DB where
  listings : List VinylListing
  priceHistory : List PriceHistory
  preferences : List UserPreferenceRecord
deriving DecidableEq

/-- `DatabaseService.insertListing`: appends a row to `vinyl_listings`. -/
def insertListing (db : DB) (l : VinylListing) : DB :=
  { db with listings := db.listings ++ [l] }

/-- `DatabaseService.updateListingLastSeen`: every row whose `unique_key`
matches gets `last_seen := now, is_active := true`. -/
def updateListingLastSeen (db : DB) (key : List Nat) (now : Nat) : DB :=
  { db with
    listings := db.listings.map fun x =>
      if x.uniqueKey = key then { x with lastSeen := now, isActive := true } else x }

/-- `DatabaseService.getExistingListing`: the first row whose `unique_key`
matches, if any (`.where('unique_key', k).first()`). -/
def getExistingListing (db : DB) (key : List Nat) : Option VinylListing :=
  db.listings.find? fun x => decide (x.uniqueKey = key)

/-- `DatabaseService.addPriceHistory`: appends a row to `price_history`. -/
def addPriceHistory (db : DB) (e : PriceHistory) : DB :=
  { db with priceHistory := db.priceHistory ++ [e] }

/-- `VinylScraper.isRelevantListing` from `src/index.ts`: the normalized
artist contains some normalized preference value of type `artist`, or the
normalized title contains some normalized preference value of type `album`. -/
def isRelevantListing (l : VinylListing) (preferences : List UserPreferenceRecord) : Bool :=
  ((preferences.filter fun p => decide (p.type = PrefType.artist)).any fun p =>
      jsIncludes (normalizeString l.artist) (normalizeString p.value)) ||
  ((preferences.filter fun p => decide (p.type = PrefType.album)).any fun p =>
      jsIncludes (normalizeString l.title) (normalizeString p.value))

/-- The body of the `for (const listing of listings)` loop in
`VinylScraper.scrapeVinyl`: relevance check, lookup by `uniqueKey`, then
either insert + first price observation + push onto `newListings`, or
last-seen update plus a price observation when the stored price differs.
`now` stands for the `new Date()` calls made while handling this listing. -/
def processListing (now : Nat) (preferences : List UserPreferenceRecord)
    (db : DB) (l : VinylListing) (newListings : List VinylListing) :
    DB × List VinylListing :=
  if isRelevantListing l preferences then
    match getExistingListing db l.uniqueKey with
    | none =>
      let db₁ := insertListing db l
      let db₂ := addPriceHistory db₁ ⟨l.id, l.price, now⟩
      (db₂, newListings ++ [l])
    | some existing =>
      let db₁ := updateListingLastSeen db l.uniqueKey now
      if existing.price ≠ l.price then
        (addPriceHistory db₁ ⟨existing.id, l.price, now⟩, newListings)
      else
        (db₁, newListings)
  else
    (db, newListings)

/-- The whole listing loop for one fetched batch. -/
def processListings (now : Nat) (preferences : List UserPreferenceRecord) :
    DB → List VinylListing → List VinylListing → DB × List VinylListing
  | db, [], newListings => (db, newListings)
  | db, l :: ls, newListings =>
    let r := processListing now preferences db l newListings
    processListings now preferences r.1 ls r.2

/-- Observable interactions with the Telegram notifier during a pass:
`sendBatchNotification(newListings)` and
`sendErrorNotification('Failed to scrape artist: ' + term, 'discogs')`
(the event records the failed term). -/
inductive Event where
  | batch (listings : List VinylListing)
  | error (term : List Nat)
deriving DecidableEq

/-- State threaded through a reconciliation pass: the store, the accumulated
`newListings` array, the notifier events emitted so far, and the log of terms
passed to `discogs.searchForArtist` (one entry per fetch). -/
structure PassState where
  db : DB
  news : List VinylListing
  events : List Event
  fetched : List (List Nat)
deriving DecidableEq

/-- The `for (const artistPref of artistPrefs)` loop of
`VinylScraper.scrapeVinyl`.  `fetch` is the marketplace collaborator
(`discogs.searchForArtist`): it either returns candidate listings or fails,
in which case the term's `catch` block reports the error and the loop
continues with the next term. -/
def runTerms (fetch : List Nat → Except Unit (List VinylListing)) (now : Nat)
    (preferences : List UserPreferenceRecord) :
    List UserPreferenceRecord → PassState → PassState
  | [], st => st
  | t :: rest, st =>
    match fetch t.value with
    | Except.ok listings =>
      let r := processListings now preferences st.db listings st.news
      runTerms fetch now preferences rest
        { st with db := r.1, news := r.2, fetched := st.fetched ++ [t.value] }
    | Except.error _ =>
      runTerms fetch now preferences rest
        { st with events := st.events ++ [Event.error t.value],
                  fetched := st.fetched ++ [t.value] }

/-- A reconciliation pass over an explicit term list: run the term loop, then
hand the accumulated batch to the notifier when `newListings.length > 0`. -/
def runPass (fetch : List Nat → Except Unit (List VinylListing)) (now : Nat)
    (db : DB) (terms : List UserPreferenceRecord) : PassState :=
  let st := runTerms fetch now db.preferences terms ⟨db, [], [], []⟩
  if 0 < st.news.length then
    { st with events := st.events ++ [Event.batch st.news] }
  else
    st

/-- `VinylScraper.scrapeVinyl`: load preferences, loop over the terms of type
`artist`, notify at the end. -/
def scrapeVinyl (fetch : List Nat → Except Unit (List VinylListing)) (now : Nat)
    (db : DB) : PassState :=
  runPass fetch now db (db.preferences.filter fun p => decide (p.type = PrefType.artist))

/-- The first code point, if any, is not whitespace. -/
def headNonWs : List Nat → Bool
  | [] => true
  | c :: _ => !isWs c

/-- The last code point, if any, is not whitespace. -/
def lastNonWs : List Nat → Bool
  | [] => true
  | [c] => !isWs c
  | _ :: c :: rest => lastNonWs (c :: rest)

/-- No two adjacent whitespace code points. -/
def noTwoWs : List Nat → Bool
  | a :: b :: rest => (!(isWs a && isWs b)) && noTwoWs (b :: rest)
  | _ => true

/-- Whether a notifier event is the end-of-pass batch notification. -/
def isBatchEvent : Event → Bool
  | Event.batch _ => true
  | Event.error _ => false

/-- All fields of a listing except `lastSeen` and `isActive` (the only two
columns `updateListingLastSeen` writes). -/
def frameFields (x : VinylListing) :
    List Nat × List Nat × List Nat × List Nat × List Nat × Nat × List Nat ×
      List Nat × Option Nat × List Nat × List Nat × List Nat × List Nat ×
      Nat × Bool × List Nat :=
  (x.id, x.title, x.titleDisplay, x.artist, x.artistDisplay, x.price, x.currency,
   x.condition, x.shippingFee, x.seller, x.sellerDisplay, x.url, x.source,
   x.dateFound, x.isShipsToIsrael, x.uniqueKey)

/-- Every element is a Unicode code point (i.e. the list models a real
JavaScript string). -/
@[reducible]
def validCodes (l : List Nat) : Prop :=
  ∀ c ∈ l, c < 1114112

/-! ### Concrete fixtures (code points spelt out; used by witnesses) -/

/-- Preference `{type: artist, value: "pink floyd"}`. -/
def prefPinkFloyd : UserPreferenceRecord :=
  ⟨PrefType.artist, [112, 105, 110, 107, 32, 102, 108, 111, 121, 100], 0⟩

/-- Preference `{type: artist, value: "the beatles"}`. -/
def prefBeatles : UserPreferenceRecord :=
  ⟨PrefType.artist, [116, 104, 101, 32, 98, 101, 97, 116, 108, 101, 115], 0⟩

/-- Preference `{type: genre, value: "rock"}`. -/
def prefRockGenre : UserPreferenceRecord :=
  ⟨PrefType.genre, [114, 111, 99, 107], 0⟩

/-- A candidate listing: "Pink Floyd - The Wall", seller "rarevinyl",
price 50, unique key "k1". -/
def listingWall : VinylListing :=
  { id := [49]
    title := [116, 104, 101, 32, 119, 97, 108, 108]
    titleDisplay := [84, 104, 101, 32, 87, 97, 108, 108]
    artist := [112, 105, 110, 107, 32, 102, 108, 111, 121, 100]
    artistDisplay := [80, 105, 110, 107, 32, 70, 108, 111, 121, 100]
    price := 50
    currency := [85, 83, 68]
    condition := [77]
    shippingFee := some 10
    seller := [114, 97, 114, 101, 118, 105, 110, 121, 108]
    sellerDisplay := [82, 97, 114, 101, 86, 105, 110, 121, 108]
    url := [117]
    source := [100]
    dateFound := 0
    lastSeen := 0
    isShipsToIsrael := true
    uniqueKey := [107, 49]
    isActive := true }

/-- The same offer stored at price 100. -/
def listingWall100 : VinylListing := { listingWall with price := 100 }

/-- A fresh candidate for the same offer at price 120. -/
def listingWall120 : VinylListing := { listingWall with price := 120 }

/-- An irrelevant candidate: "ABBA - Arrival", unique key "k2". -/
def listingAbba : VinylListing :=
  { listingWall with
      artist := [97, 98, 98, 97]
      artistDisplay := [65, 66, 66, 65]
      title := [97, 114, 114, 105, 118, 97, 108]
      titleDisplay := [65, 114, 114, 105, 118, 97, 108]
      price := 30
      uniqueKey := [107, 50] }

/-- A store holding only the "pink floyd" artist preference. -/
def dbPF : DB := ⟨[], [], [prefPinkFloyd]⟩

/-- A store with the offer already recorded at price 100. -/
def dbStored : DB := ⟨[listingWall100], [], [prefPinkFloyd]⟩

/-- A store whose only preference is a genre term. -/
def dbGenreOnly : DB := ⟨[], [], [prefRockGenre]⟩

/-- A store with two artist preferences. -/
def dbTwoArtists : DB := ⟨[], [], [prefPinkFloyd, prefBeatles]⟩

/-- A marketplace stub that always answers with no listings. -/
def fetchNone : List Nat → Except Unit (List VinylListing) :=
  fun _ => Except.ok []

/-- A marketplace stub that always answers with the Wall listing. -/
def fetchWall : List Nat → Except Unit (List VinylListing) :=
  fun _ => Except.ok [listingWall]

/-- A marketplace stub that fails on the "pink floyd" term and answers the
Wall listing otherwise. -/
def fetchFailPF : List Nat → Except Unit (List VinylListing) :=
  fun v => if v = prefPinkFloyd.value then Except.error () else Except.ok [listingWall]

end VinylScraper

namespace VinylScraper

example : normalizeString [32, 32, 65, 9, 9, 98, 32] = [97, 32, 98] := by decide

example : jsIncludes [112, 105, 110, 107] [105, 110] = true := by decide

example : jsIncludes [112, 105] [105, 110] = false := by decide

example : natCodes 120 = [49, 50, 48] := by decide

example : base64Encode [77, 97, 110] = [84, 87, 70, 117] := by decide

example : base64Encode [77, 97] = [84, 87, 69, 61] := by decide

example : base64Encode [77] = [84, 81, 61, 61] := by decide

/-! ### Basic facts about `isWs`, `jsLower` -/

theorem isWs_32 : isWs 32 = true := by decide

theorem jsLower_32 : jsLower 32 = 32 := by decide

theorem isWs_jsLower (n : Nat) : isWs (jsLower n) = isWs n := by
  unfold jsLower
  split
  · next h =>
    unfold isWs
    rw [decide_eq_decide]
    omega
  · rfl

theorem jsLower_idem (n : Nat) : jsLower (jsLower n) = jsLower n := by
  simp only [jsLower]
  split_ifs <;> omega

/-! ### Facts about `collapseWs` -/

theorem mem_collapseWs {c : Nat} :
    ∀ {b : Bool} {l : List Nat}, c ∈ collapseWs b l → c = 32 ∨ c ∈ l := by
  intro b l
  induction l generalizing b with
  | nil => simp [collapseWs]
  | cons a t ih =>
    simp only [collapseWs]
    split
    · split
      · intro hm
        rcases ih hm with h | h
        · exact Or.inl h
        · exact Or.inr (List.mem_cons_of_mem _ h)
      · intro hm
        rcases List.mem_cons.1 hm with rfl | hm'
        · exact Or.inl rfl
        · rcases ih hm' with h | h
          · exact Or.inl h
          · exact Or.inr (List.mem_cons_of_mem _ h)
    · intro hm
      rcases List.mem_cons.1 hm with rfl | hm'
      · exact Or.inr (List.mem_cons_self _ _)
      · rcases ih hm' with h | h
        · exact Or.inl h
        · exact Or.inr (List.mem_cons_of_mem _ h)

theorem ws_mem_collapseWs_eq_32 {c : Nat} :
    ∀ {b : Bool} {l : List Nat}, c ∈ collapseWs b l → isWs c = true → c = 32 := by
  intro b l
  induction l generalizing b with
  | nil => simp [collapseWs]
  | cons a t ih =>
    simp only [collapseWs]
    split
    · split
      · exact fun hm hw => ih hm hw
      · intro hm hw
        rcases List.mem_cons.1 hm with rfl | hm'
        · rfl
        · exact ih hm' hw
    · next hws =>
      intro hm hw
      rcases List.mem_cons.1 hm with rfl | hm'
      · exact absurd hw (by simp [hws])
      · exact ih hm' hw

theorem headNonWs_collapseWs_true : ∀ l : List Nat, headNonWs (collapseWs true l) = true := by
  intro l
  induction l with
  | nil => rfl
  | cons a t ih =>
    simp only [collapseWs]
    split
    · exact ih
    · next h => simp [headNonWs, h]

theorem noTwoWs_cons_of_headNonWs (a : Nat) {l : List Nat}
    (h₁ : headNonWs l = true) (h₂ : noTwoWs l = true) : noTwoWs (a :: l) = true := by
  cases l with
  | nil => rfl
  | cons x xs =>
    simp only [headNonWs, Bool.not_eq_true'] at h₁
    simp [noTwoWs, h₁, h₂]

theorem noTwoWs_cons_of_nonWs {a : Nat} {l : List Nat}
    (h₁ : isWs a = false) (h₂ : noTwoWs l = true) : noTwoWs (a :: l) = true := by
  cases l with
  | nil => rfl
  | cons x xs => simp [noTwoWs, h₁, h₂]

theorem noTwoWs_collapseWs : ∀ (l : List Nat) (b : Bool), noTwoWs (collapseWs b l) = true := by
  intro l
  induction l with
  | nil => intro b; rfl
  | cons a t ih =>
    intro b
    simp only [collapseWs]
    split
    · split
      · exact ih true
      · exact noTwoWs_cons_of_headNonWs 32 (headNonWs_collapseWs_true t) (ih true)
    · next h => exact noTwoWs_cons_of_nonWs (by simpa using h) (ih false)

theorem collapseWs_true_ne_nil :
    ∀ l : List Nat, lastNonWs l = true → l ≠ [] → collapseWs true l ≠ [] := by
  intro l
  induction l with
  | nil => intro _ h; exact absurd rfl h
  | cons a t ih =>
    intro hl _
    cases t with
    | nil =>
      simp only [lastNonWs, Bool.not_eq_true'] at hl
      simp [collapseWs, hl]
    | cons b r =>
      simp only [collapseWs]
      split
      · exact ih (by simpa [lastNonWs] using hl) (by simp)
      · simp

theorem lastNonWs_cons {a : Nat} {l : List Nat} (h : l ≠ []) :
    lastNonWs (a :: l) = lastNonWs l := by
  cases l with
  | nil => exact absurd rfl h
  | cons b r => rfl

theorem collapseWs_false_ne_nil {l : List Nat} (h : l ≠ []) : collapseWs false l ≠ [] := by
  cases l with
  | nil => exact absurd rfl h
  | cons a t =>
    simp only [collapseWs]
    split <;> simp

theorem lastNonWs_collapseWs :
    ∀ (l : List Nat) (b : Bool), lastNonWs l = true → lastNonWs (collapseWs b l) = true := by
  intro l
  induction l with
  | nil => intro b _; cases b <;> rfl
  | cons a t ih =>
    intro b hl
    cases t with
    | nil =>
      simp only [lastNonWs, Bool.not_eq_true'] at hl
      cases b <;> simp [collapseWs, hl, lastNonWs]
    | cons c r =>
      have hl' : lastNonWs (c :: r) = true := by simpa [lastNonWs] using hl
      by_cases hA : isWs a = true
      · cases b with
        | true =>
          rw [show collapseWs true (a :: c :: r) = collapseWs true (c :: r) from by
            simp [collapseWs, hA]]
          exact ih true hl'
        | false =>
          rw [show collapseWs false (a :: c :: r) = 32 :: collapseWs true (c :: r) from by
            simp [collapseWs, hA]]
          rw [lastNonWs_cons (collapseWs_true_ne_nil _ hl' (by simp))]
          exact ih true hl'
      · have hA' : isWs a = false := by simpa using hA
        rw [show collapseWs b (a :: c :: r) = a :: collapseWs false (c :: r) from by
          simp [collapseWs, hA']]
        rw [lastNonWs_cons (collapseWs_false_ne_nil (by simp))]
        exact ih false hl'

theorem collapseWs_fixed :
    ∀ l : List Nat, (∀ c ∈ l, isWs c = true → c = 32) → noTwoWs l = true →
      collapseWs false l = l := by
  intro l
  induction l with
  | nil => intro _ _; rfl
  | cons a t ih =>
    intro hws hnt
    have hnt' : noTwoWs t = true := by
      cases t with
      | nil => rfl
      | cons d r => simp only [noTwoWs, Bool.and_eq_true] at hnt; exact hnt.2
    have hrec : collapseWs false t = t :=
      ih (fun c hc hw => hws c (List.mem_cons_of_mem _ hc) hw) hnt'
    by_cases ha : isWs a = true
    · have ha32 : a = 32 := hws a (List.mem_cons_self _ _) ha
      rw [show collapseWs false (a :: t) = 32 :: collapseWs true t from by
        simp [collapseWs, ha]]
      cases t with
      | nil => simp [ha32, collapseWs]
      | cons d r =>
        have hd : isWs d = false := by
          simp only [noTwoWs, Bool.and_eq_true, Bool.not_eq_true'] at hnt
          rcases hnt with ⟨h1, _⟩
          cases hdw : isWs d
          · rfl
          · rw [ha, hdw] at h1; simp at h1
        rw [show collapseWs true (d :: r) = d :: collapseWs false r from by
          simp [collapseWs, hd]]
        rw [show collapseWs false (d :: r) = d :: collapseWs false r from by
          simp [collapseWs, hd]] at hrec
        rw [ha32, hrec]
    · have ha' : isWs a = false := by simpa using ha
      rw [show collapseWs false (a :: t) = a :: collapseWs false t from by
        simp [collapseWs, ha']]
      rw [hrec]

/-! ### Facts about `jsTrim` and idempotence of `normalizeString` -/

theorem headNonWs_dropWhile (l : List Nat) : headNonWs (l.dropWhile isWs) = true := by
  induction l with
  | nil => rfl
  | cons a t ih =>
    rw [List.dropWhile_cons]
    split
    · exact ih
    · next h => simp [headNonWs, h]

theorem dropWhile_of_headNonWs {l : List Nat} (h : headNonWs l = true) :
    l.dropWhile isWs = l := by
  cases l with
  | nil => rfl
  | cons a t =>
    simp only [headNonWs, Bool.not_eq_true'] at h
    simp [List.dropWhile_cons, h]

theorem headNonWs_append {l₁ l₂ : List Nat} (h : l₁ ≠ []) :
    headNonWs (l₁ ++ l₂) = headNonWs l₁ := by
  cases l₁ with
  | nil => exact absurd rfl h
  | cons a t => rfl

theorem lastNonWs_eq_headNonWs_reverse : ∀ l : List Nat, lastNonWs l = headNonWs l.reverse := by
  intro l
  induction l with
  | nil => rfl
  | cons a t ih =>
    cases t with
    | nil => rfl
    | cons b r =>
      rw [lastNonWs_cons (by simp : (b :: r : List Nat) ≠ []), ih]
      rw [show (a :: b :: r).reverse = (b :: r).reverse ++ [a] from List.reverse_cons _ _]
      rw [headNonWs_append (by simp)]

theorem jsTrim_fixed {l : List Nat} (h₁ : headNonWs l = true) (h₂ : lastNonWs l = true) :
    jsTrim l = l := by
  unfold jsTrim
  rw [dropWhile_of_headNonWs h₁]
  rw [lastNonWs_eq_headNonWs_reverse] at h₂
  rw [dropWhile_of_headNonWs h₂, List.reverse_reverse]

theorem map_eq_self_of {f : Nat → Nat} {l : List Nat} (h : ∀ c ∈ l, f c = c) :
    l.map f = l := by
  induction l with
  | nil => rfl
  | cons a t ih =>
    simp only [List.map_cons]
    rw [h a (List.mem_cons_self _ _), ih fun c hc => h c (List.mem_cons_of_mem _ hc)]

theorem headNonWs_map_jsLower (l : List Nat) :
    headNonWs (l.map jsLower) = headNonWs l := by
  cases l with
  | nil => rfl
  | cons a t => simp [headNonWs, isWs_jsLower]

theorem lastNonWs_map_jsLower (l : List Nat) :
    lastNonWs (l.map jsLower) = lastNonWs l := by
  rw [lastNonWs_eq_headNonWs_reverse, lastNonWs_eq_headNonWs_reverse]
  rw [← List.map_reverse, headNonWs_map_jsLower]

theorem collapseWs_false_headNonWs {l : List Nat} (h : headNonWs l = true) :
    headNonWs (collapseWs false l) = true := by
  cases l with
  | nil => rfl
  | cons a t =>
    simp only [headNonWs, Bool.not_eq_true'] at h
    rw [show collapseWs false (a :: t) = a :: collapseWs false t from by
      simp [collapseWs, h]]
    simp [headNonWs, h]

theorem lastNonWs_jsTrim (s : List Nat) : lastNonWs (jsTrim s) = true := by
  rw [lastNonWs_eq_headNonWs_reverse, jsTrim, List.reverse_reverse]
  exact headNonWs_dropWhile _

theorem headNonWs_jsTrim (s : List Nat) : headNonWs (jsTrim s) = true := by
  unfold jsTrim
  have hx : headNonWs (s.dropWhile isWs) = true := headNonWs_dropWhile s
  have hsuf : ((s.dropWhile isWs).reverse.dropWhile isWs) <:+ (s.dropWhile isWs).reverse :=
    List.dropWhile_suffix _
  have hpre := hsuf.reverse
  rw [List.reverse_reverse] at hpre
  rcases hpre with ⟨t, ht⟩
  rcases hz : ((s.dropWhile isWs).reverse.dropWhile isWs).reverse with _ | ⟨c, cs⟩
  · rfl
  · rw [hz] at ht
    rw [← ht] at hx
    rw [show (c :: cs) ++ t = c :: (cs ++ t) from rfl] at hx
    simpa [headNonWs] using hx

theorem headNonWs_normalizeString (s : List Nat) : headNonWs (normalizeString s) = true := by
  unfold normalizeString
  exact collapseWs_false_headNonWs
    (by rw [headNonWs_map_jsLower]; exact headNonWs_jsTrim s)

theorem lastNonWs_normalizeString (s : List Nat) : lastNonWs (normalizeString s) = true := by
  unfold normalizeString
  exact lastNonWs_collapseWs _ _
    (by rw [lastNonWs_map_jsLower]; exact lastNonWs_jsTrim s)

theorem jsLower_mem_normalizeString {c : Nat} {s : List Nat}
    (h : c ∈ normalizeString s) : jsLower c = c := by
  unfold normalizeString at h
  rcases mem_collapseWs h with rfl | hm
  · exact jsLower_32
  · rcases List.mem_map.1 hm with ⟨d, _, rfl⟩
    exact jsLower_idem d

/-- The claim of the spec: `normalize` is idempotent
(`normalize(normalize(x)) == normalize(x)`). -/
theorem normalizeString_idem (s : List Nat) :
    normalizeString (normalizeString s) = normalizeString s := by
  have h₁ : jsTrim (normalizeString s) = normalizeString s :=
    jsTrim_fixed (headNonWs_normalizeString s) (lastNonWs_normalizeString s)
  have h₂ : (normalizeString s).map jsLower = normalizeString s :=
    map_eq_self_of fun c hc => jsLower_mem_normalizeString hc
  have h₃ : collapseWs false (normalizeString s) = normalizeString s :=
    collapseWs_fixed _ (fun c hc hw => ws_mem_collapseWs_eq_32 hc hw)
      (noTwoWs_collapseWs _ _)
  calc normalizeString (normalizeString s)
      = collapseWs false ((jsTrim (normalizeString s)).map jsLower) := rfl
    _ = collapseWs false ((normalizeString s).map jsLower) := by rw [h₁]
    _ = collapseWs false (normalizeString s) := by rw [h₂]
    _ = normalizeString s := h₃

/-! ### The relevance test (claim C1) -/

theorem jsIncludes_iff (hay needle : List Nat) :
    jsIncludes hay needle = true ↔ needle <:+: hay := by
  induction hay with
  | nil =>
    rw [show jsIncludes [] needle = (needle.isPrefixOf [] || false) from rfl]
    simp only [Bool.or_false, List.isPrefixOf_iff_prefix]
    simp [ List.prefix_nil, List.infix_nil]
  | cons a t ih =>
    rw [show jsIncludes (a :: t) needle = (needle.isPrefixOf (a :: t) || jsIncludes t needle)
      from rfl]
    rw [Bool.or_eq_true, ih, List.isPrefixOf_iff_prefix, List.infix_cons_iff]

/-- **C1.** A candidate is relevant iff its normalized artist contains some
normalized preference value of type `artist` or its normalized title contains
some normalized preference value of type `album`; genre preferences never
affect the decision; an irrelevant candidate causes zero store mutations. -/
theorem claim_C1_relevance (l : VinylListing) (preferences : List UserPreferenceRecord)
    (db : DB) (now : Nat) (acc : List VinylListing) :
    (isRelevantListing l preferences = true ↔
      ((∃ p ∈ preferences, p.type = PrefType.artist ∧
          normalizeString p.value <:+: normalizeString l.artist) ∨
       (∃ p ∈ preferences, p.type = PrefType.album ∧
          normalizeString p.value <:+: normalizeString l.title)))
    ∧ isRelevantListing l (preferences.filter fun p => decide (¬p.type = PrefType.genre))
        = isRelevantListing l preferences
    ∧ (isRelevantListing l preferences = false →
        processListing now preferences db l acc = (db, acc)) := by
  refine ⟨?_, ?_, ?_⟩
  · simp only [isRelevantListing, Bool.or_eq_true, List.any_eq_true, List.mem_filter,
      decide_eq_true_eq, jsIncludes_iff]
    constructor
    · rintro (⟨p, ⟨hp, hty⟩, hinc⟩ | ⟨p, ⟨hp, hty⟩, hinc⟩)
      · exact Or.inl ⟨p, hp, hty, hinc⟩
      · exact Or.inr ⟨p, hp, hty, hinc⟩
    · rintro (⟨p, hp, hty, hinc⟩ | ⟨p, hp, hty, hinc⟩)
      · exact Or.inl ⟨p, ⟨hp, hty⟩, hinc⟩
      · exact Or.inr ⟨p, ⟨hp, hty⟩, hinc⟩
  · have hart : (preferences.filter fun p => decide (¬p.type = PrefType.genre)).filter
        (fun p => decide (p.type = PrefType.artist)) =
        preferences.filter fun p => decide (p.type = PrefType.artist) := by
      rw [List.filter_filter]
      apply List.filter_congr
      intro x _
      cases x.type <;> simp
    have halb : (preferences.filter fun p => decide (¬p.type = PrefType.genre)).filter
        (fun p => decide (p.type = PrefType.album)) =
        preferences.filter fun p => decide (p.type = PrefType.album) := by
      rw [List.filter_filter]
      apply List.filter_congr
      intro x _
      cases x.type <;> simp
    simp only [isRelevantListing, hart, halb]
  · intro h
    simp [processListing, h]

/-- Witness for C1: the ABBA listing is irrelevant to a "pink floyd"
preference list and leaves the store untouched. -/
theorem claim_C1_relevance_witness :
    processListing 7 [prefPinkFloyd] dbPF listingAbba [] = (dbPF, []) :=
  (claim_C1_relevance listingAbba [prefPinkFloyd] dbPF 7 []).2.2 (by decide)

/-! ### New listings (claim C2) and price changes (claims C3, C9) -/

theorem processListing_skip (now : Nat) (preferences : List UserPreferenceRecord)
    (db : DB) (l : VinylListing) (acc : List VinylListing)
    (h : isRelevantListing l preferences = false) :
    processListing now preferences db l acc = (db, acc) := by
  simp [processListing, h]

theorem processListing_new (now : Nat) (preferences : List UserPreferenceRecord)
    (db : DB) (l : VinylListing) (acc : List VinylListing)
    (hrel : isRelevantListing l preferences = true)
    (hnew : getExistingListing db l.uniqueKey = none) :
    processListing now preferences db l acc =
      ({ db with
          listings := db.listings ++ [l],
          priceHistory := db.priceHistory ++ [⟨l.id, l.price, now⟩] }, acc ++ [l]) := by
  simp [processListing, hrel, hnew, insertListing, addPriceHistory]

theorem processListing_price_changed (now : Nat) (preferences : List UserPreferenceRecord)
    (db : DB) (l e : VinylListing) (acc : List VinylListing)
    (hrel : isRelevantListing l preferences = true)
    (hfound : getExistingListing db l.uniqueKey = some e)
    (hprice : e.price ≠ l.price) :
    processListing now preferences db l acc =
      ({ db with
          listings := db.listings.map fun x =>
            if x.uniqueKey = l.uniqueKey then
              { x with lastSeen := now, isActive := true }
            else x,
          priceHistory := db.priceHistory ++ [⟨e.id, l.price, now⟩] }, acc) := by
  simp [processListing, hrel, hfound, hprice, updateListingLastSeen, addPriceHistory]

theorem processListing_seen_again (now : Nat) (preferences : List UserPreferenceRecord)
    (db : DB) (l e : VinylListing) (acc : List VinylListing)
    (hrel : isRelevantListing l preferences = true)
    (hfound : getExistingListing db l.uniqueKey = some e)
    (hprice : e.price = l.price) :
    processListing now preferences db l acc =
      (updateListingLastSeen db l.uniqueKey now, acc) := by
  simp [processListing, hrel, hfound, hprice]

/-- **C2.** A relevant candidate whose key is not stored is inserted (with
the active flag it carries, always `true` for candidates built by the
marketplace client), exactly one price observation at the candidate's price
and the current time is appended, and the candidate joins the new-listings
batch. -/
theorem claim_C2_new_listing (now : Nat) (preferences : List UserPreferenceRecord)
    (db : DB) (l : VinylListing) (acc : List VinylListing)
    (hrel : isRelevantListing l preferences = true)
    (hnew : getExistingListing db l.uniqueKey = none)
    (hact : l.isActive = true) :
    processListing now preferences db l acc =
      ({ db with
          listings := db.listings ++ [l],
          priceHistory := db.priceHistory ++ [⟨l.id, l.price, now⟩] }, acc ++ [l])
    ∧ l.isActive = true :=
  ⟨processListing_new now preferences db l acc hrel hnew, hact⟩

/-- Witness for C2 at the concrete Wall candidate and an empty store. -/
theorem claim_C2_new_listing_witness :
    processListing 3 [prefPinkFloyd] dbPF listingWall [] =
      ({ dbPF with
          listings := [listingWall],
          priceHistory := [⟨listingWall.id, listingWall.price, 3⟩] }, [listingWall]) :=
  (claim_C2_new_listing 3 [prefPinkFloyd] dbPF listingWall []
    (by decide) (by decide) (by decide)).1

/-- **C3.** A relevant candidate whose key is stored at a different price
updates last-seen/active on the matching rows and appends exactly one new
price observation at the candidate's price; nothing is inserted and the
candidate is not classified as new. -/
theorem claim_C3_price_changed (now : Nat) (preferences : List UserPreferenceRecord)
    (db : DB) (l e : VinylListing) (acc : List VinylListing)
    (hrel : isRelevantListing l preferences = true)
    (hfound : getExistingListing db l.uniqueKey = some e)
    (hprice : e.price ≠ l.price) :
    processListing now preferences db l acc =
      ({ db with
          listings := db.listings.map fun x =>
            if x.uniqueKey = l.uniqueKey then
              { x with lastSeen := now, isActive := true }
            else x,
          priceHistory := db.priceHistory ++ [⟨e.id, l.price, now⟩] }, acc) :=
  processListing_price_changed now preferences db l e acc hrel hfound hprice

/-- Witness for C3: stored price 100, candidate price 120. -/
theorem claim_C3_price_changed_witness :
    processListing 9 [prefPinkFloyd] dbStored listingWall120 [] =
      ({ dbStored with
          listings := [{ listingWall100 with lastSeen := 9, isActive := true }],
          priceHistory := [⟨listingWall100.id, 120, 9⟩] }, []) := by
  have h := claim_C3_price_changed 9 [prefPinkFloyd] dbStored listingWall120 listingWall100 []
    (by decide) (by decide) (by decide)
  rw [h]
  decide

theorem frameFields_update (now : Nat) (key : List Nat) (x : VinylListing) :
    frameFields (if x.uniqueKey = key then { x with lastSeen := now, isActive := true } else x)
      = frameFields x := by
  split <;> rfl

theorem uniqueKey_update (now : Nat) (key : List Nat) (x : VinylListing) :
    (if x.uniqueKey = key then { x with lastSeen := now, isActive := true } else x).uniqueKey
      = x.uniqueKey := by
  split <;> rfl

theorem find?_listings_update (listings : List VinylListing) (key : List Nat) (now : Nat) :
    (listings.map fun x =>
        if x.uniqueKey = key then { x with lastSeen := now, isActive := true } else x).find?
        (fun x => decide (x.uniqueKey = key))
      = (listings.find? fun x => decide (x.uniqueKey = key)).map
          (fun x => if x.uniqueKey = key then { x with lastSeen := now, isActive := true } else x) := by
  rw [List.find?_map]
  have hfun : ((fun x : VinylListing => decide (x.uniqueKey = key)) ∘
      fun x => if x.uniqueKey = key then { x with lastSeen := now, isActive := true } else x)
      = fun x : VinylListing => decide (x.uniqueKey = key) := by
    funext x
    simp [Function.comp, uniqueKey_update]
  rw [hfun]

/-- **C9.** On the price-differs path every stored field other than
`last_seen` and `is_active` is unchanged (in particular the stored price
keeps its original value), and a later pass seeing the same new price again
compares against the old stored price and appends a further observation. -/
theorem claim_C9_frame (now now' : Nat) (preferences : List UserPreferenceRecord)
    (db : DB) (l e : VinylListing) (acc acc' : List VinylListing)
    (hrel : isRelevantListing l preferences = true)
    (hfound : getExistingListing db l.uniqueKey = some e)
    (hprice : e.price ≠ l.price) :
    ((processListing now preferences db l acc).1.listings.map frameFields
        = db.listings.map frameFields)
    ∧ ((getExistingListing (processListing now preferences db l acc).1 l.uniqueKey).map
          (fun x => x.price) = some e.price)
    ∧ (processListing now' preferences (processListing now preferences db l acc).1 l acc').2
        = acc'
    ∧ ((processListing now' preferences (processListing now preferences db l acc).1 l acc').1).priceHistory
        = ((processListing now preferences db l acc).1).priceHistory ++ [⟨e.id, l.price, now'⟩] := by
  have hstep := processListing_price_changed now preferences db l e acc hrel hfound hprice
  have hkey : e.uniqueKey = l.uniqueKey := by
    have := List.find?_some hfound
    simpa using this
  have hfound' : getExistingListing (processListing now preferences db l acc).1 l.uniqueKey
      = some { e with lastSeen := now, isActive := true } := by
    rw [hstep]
    show (db.listings.map fun x =>
        if x.uniqueKey = l.uniqueKey then { x with lastSeen := now, isActive := true }
        else x).find? (fun x => decide (x.uniqueKey = l.uniqueKey)) = _
    rw [find?_listings_update]
    rw [show (db.listings.find? fun x => decide (x.uniqueKey = l.uniqueKey)) = some e
      from hfound]
    simp [hkey]
  refine ⟨?_, ?_, ?_, ?_⟩
  · rw [hstep]
    simp only [List.map_map]
    apply List.map_congr_left
    intro x _
    simp [Function.comp, frameFields_update]
  · rw [hfound']
    rfl
  · generalize hdb : (processListing now preferences db l acc).1 = db₁ at hfound'
    simp [processListing, hrel, hfound', hprice]
  · generalize hdb : (processListing now preferences db l acc).1 = db₁ at hfound'
    simp [processListing, hrel, hfound', hprice, updateListingLastSeen, addPriceHistory]

/-- Witness for C9 at the concrete stored-100/candidate-120 store. -/
theorem claim_C9_frame_witness :
    ((getExistingListing (processListing 9 [prefPinkFloyd] dbStored listingWall120 []).1
        listingWall120.uniqueKey).map (fun x => x.price) = some 100)
    ∧ (processListing 11 [prefPinkFloyd]
          (processListing 9 [prefPinkFloyd] dbStored listingWall120 []).1 listingWall120 []).2
        = [] := by
  have h := claim_C9_frame 9 11 [prefPinkFloyd] dbStored listingWall120 listingWall100 [] []
    (by decide) (by decide) (by decide)
  exact ⟨h.2.1, h.2.2.1⟩

/-! ### No key is classified as New twice in one pass (claim C6) -/

theorem processListings_key_invariant (now : Nat) (preferences : List UserPreferenceRecord) :
    ∀ (ls : List VinylListing) (db : DB) (acc : List VinylListing),
      (∀ a ∈ acc, ∃ x ∈ db.listings, x.uniqueKey = a.uniqueKey) →
      acc.Pairwise (fun a b => a.uniqueKey ≠ b.uniqueKey) →
      ((processListings now preferences db ls acc).2.Pairwise
          (fun a b => a.uniqueKey ≠ b.uniqueKey))
      ∧ ∀ a ∈ (processListings now preferences db ls acc).2,
          ∃ x ∈ ((processListings now preferences db ls acc).1).listings,
            x.uniqueKey = a.uniqueKey := by
  intro ls
  induction ls with
  | nil =>
    intro db acc h₁ h₂
    exact ⟨h₂, h₁⟩
  | cons l rest ih =>
    intro db acc h₁ h₂
    rw [show processListings now preferences db (l :: rest) acc
        = processListings now preferences (processListing now preferences db l acc).1 rest
            (processListing now preferences db l acc).2 from rfl]
    by_cases hrel : isRelevantListing l preferences = true
    · rcases hfind : getExistingListing db l.uniqueKey with _ | e
      · rw [processListing_new now preferences db l acc hrel hfind]
        apply ih
        · intro a ha
          rcases List.mem_append.1 ha with ha' | ha'
          · rcases h₁ a ha' with ⟨x, hx, hk⟩
            exact ⟨x, List.mem_append_left _ hx, hk⟩
          · have ha'' : a = l := List.mem_singleton.1 ha'
            subst ha''
            exact ⟨a, List.mem_append_right _ (List.mem_singleton.2 rfl), rfl⟩
        · rw [List.pairwise_append]
          refine ⟨h₂, by simp, ?_⟩
          intro a ha b hb
          have hb' : b = l := List.mem_singleton.1 hb
          subst hb'
          rcases h₁ a ha with ⟨x, hx, hk⟩
          intro hcontra
          have hnone := List.find?_eq_none.1 hfind x hx
          rw [hk, hcontra] at hnone
          simp at hnone
      · have hupd : ∀ db' : DB, db'.listings = db.listings.map
            (fun x => if x.uniqueKey = l.uniqueKey then
              { x with lastSeen := now, isActive := true } else x) →
            (∀ a ∈ acc, ∃ x ∈ db'.listings, x.uniqueKey = a.uniqueKey) := by
          intro db' hdb' a ha
          rcases h₁ a ha with ⟨x, hx, hk⟩
          refine ⟨if x.uniqueKey = l.uniqueKey then
              { x with lastSeen := now, isActive := true } else x, ?_, ?_⟩
          · rw [hdb']
            exact List.mem_map_of_mem _ hx
          · rw [uniqueKey_update]
            exact hk
        by_cases hp : e.price = l.price
        · rw [processListing_seen_again now preferences db l e acc hrel hfind hp]
          exact ih _ _ (hupd _ rfl) h₂
        · rw [processListing_price_changed now preferences db l e acc hrel hfind hp]
          exact ih _ _ (hupd _ rfl) h₂
    · rw [processListing_skip now preferences db l acc (by simpa using hrel)]
      exact ih db acc h₁ h₂

/-- **C6.** Reconciling the same never-before-seen candidate twice in one
pass classifies it as New only the first time (the second occurrence takes
the duplicate path, and the listing is inserted only once); more generally
the new-listings batch of a pass never contains two entries with the same
identity key, because the insert happens before the next lookup of that
key. -/
theorem claim_C6_no_double_new (now : Nat) (preferences : List UserPreferenceRecord)
    (db : DB) (l : VinylListing) :
    ((isRelevantListing l preferences = true →
        getExistingListing db l.uniqueKey = none →
        (processListings now preferences db [l, l] []).2 = [l]
        ∧ ((processListings now preferences db [l, l] []).1).listings.length
            = db.listings.length + 1))
    ∧ ∀ ls : List VinylListing,
        (processListings now preferences db ls []).2.Pairwise
          (fun a b => a.uniqueKey ≠ b.uniqueKey) := by
  constructor
  · intro hrel hnew
    have h₁ := processListing_new now preferences db l [] hrel hnew
    have hfound₂ : getExistingListing
        ({ db with
            listings := db.listings ++ [l],
            priceHistory := db.priceHistory ++ [⟨l.id, l.price, now⟩] } : DB) l.uniqueKey
        = some l := by
      show (db.listings ++ [l]).find? (fun x => decide (x.uniqueKey = l.uniqueKey)) = some l
      rw [List.find?_append, show db.listings.find? (fun x => decide (x.uniqueKey = l.uniqueKey))
        = none from hnew]
      simp
    have h₂ := processListing_seen_again now preferences _ l l [l] hrel hfound₂ rfl
    have hstep₂ : processListings now preferences
        ({ db with
            listings := db.listings ++ [l],
            priceHistory := db.priceHistory ++ [⟨l.id, l.price, now⟩] } : DB) [l] [l]
        = (updateListingLastSeen
            ({ db with
                listings := db.listings ++ [l],
                priceHistory := db.priceHistory ++ [⟨l.id, l.price, now⟩] } : DB)
            l.uniqueKey now, [l]) := by
      rw [show processListings now preferences
            ({ db with
                listings := db.listings ++ [l],
                priceHistory := db.priceHistory ++ [⟨l.id, l.price, now⟩] } : DB) [l] [l]
          = processListings now preferences
              (processListing now preferences
                ({ db with
                    listings := db.listings ++ [l],
                    priceHistory := db.priceHistory ++ [⟨l.id, l.price, now⟩] } : DB) l [l]).1
              []
              (processListing now preferences
                ({ db with
                    listings := db.listings ++ [l],
                    priceHistory := db.priceHistory ++ [⟨l.id, l.price, now⟩] } : DB) l [l]).2
          from rfl]
      rw [h₂]
      rfl
    rw [show processListings now preferences db [l, l] []
        = processListings now preferences (processListing now preferences db l []).1 [l]
            (processListing now preferences db l []).2 from rfl]
    rw [h₁]
    simp only [List.nil_append]
    rw [hstep₂]
    constructor
    · rfl
    · simp [updateListingLastSeen]
  · intro ls
    exact (processListings_key_invariant now preferences ls db []
      (by intro a ha; cases ha) List.Pairwise.nil).1

/-- Witness for C6: fetching the Wall candidate twice yields one New
classification and one insert. -/
theorem claim_C6_no_double_new_witness :
    (processListings 4 [prefPinkFloyd] dbPF [listingWall, listingWall] []).2 = [listingWall]
    ∧ ((processListings 4 [prefPinkFloyd] dbPF [listingWall, listingWall] []).1).listings.length
        = dbPF.listings.length + 1 :=
  (claim_C6_no_double_new 4 [prefPinkFloyd] dbPF listingWall).1 (by decide) (by decide)

/-! ### Pass-level structure: the term loop (claims C5, C7, C10) -/

theorem runTerms_acc (fetch : List Nat → Except Unit (List VinylListing)) (now : Nat)
    (preferences : List UserPreferenceRecord) :
    ∀ (ts : List UserPreferenceRecord) (st : PassState),
      runTerms fetch now preferences ts st =
        ⟨(runTerms fetch now preferences ts ⟨st.db, st.news, [], []⟩).db,
         (runTerms fetch now preferences ts ⟨st.db, st.news, [], []⟩).news,
         st.events ++ (runTerms fetch now preferences ts ⟨st.db, st.news, [], []⟩).events,
         st.fetched ++ (runTerms fetch now preferences ts ⟨st.db, st.news, [], []⟩).fetched⟩ := by
  intro ts
  induction ts with
  | nil =>
    intro st
    simp [runTerms]
  | cons t rest ih =>
    intro st
    rcases hf : fetch t.value with e | listings
    · rw [show runTerms fetch now preferences (t :: rest) st
          = runTerms fetch now preferences rest
              { st with events := st.events ++ [Event.error t.value],
                        fetched := st.fetched ++ [t.value] } from by
        simp only [runTerms]
        rw [hf]
        try rfl]
      rw [show runTerms fetch now preferences (t :: rest) ⟨st.db, st.news, [], []⟩
          = runTerms fetch now preferences rest
              ⟨st.db, st.news, [Event.error t.value], [t.value]⟩ from by
        simp only [runTerms]
        rw [hf]
        try rfl]
      rw [ih { st with events := st.events ++ [Event.error t.value],
                       fetched := st.fetched ++ [t.value] }]
      rw [ih ⟨st.db, st.news, [Event.error t.value], [t.value]⟩]
      simp
    · rw [show runTerms fetch now preferences (t :: rest) st
          = runTerms fetch now preferences rest
              { st with
                  db := (processListings now preferences st.db listings st.news).1,
                  news := (processListings now preferences st.db listings st.news).2,
                  fetched := st.fetched ++ [t.value] } from by
        simp only [runTerms]
        rw [hf]
        try rfl]
      rw [show runTerms fetch now preferences (t :: rest) ⟨st.db, st.news, [], []⟩
          = runTerms fetch now preferences rest
              ⟨(processListings now preferences st.db listings st.news).1,
               (processListings now preferences st.db listings st.news).2,
               [], [t.value]⟩ from by
        simp only [runTerms]
        rw [hf]
        try rfl]
      rw [ih { st with
                  db := (processListings now preferences st.db listings st.news).1,
                  news := (processListings now preferences st.db listings st.news).2,
                  fetched := st.fetched ++ [t.value] }]
      rw [ih ⟨(processListings now preferences st.db listings st.news).1,
              (processListings now preferences st.db listings st.news).2,
              [], [t.value]⟩]
      simp

theorem runTerms_events_error_only (fetch : List Nat → Except Unit (List VinylListing))
    (now : Nat) (preferences : List UserPreferenceRecord) :
    ∀ (ts : List UserPreferenceRecord) (st : PassState),
      (∀ e ∈ st.events, ∃ v, e = Event.error v) →
      ∀ e ∈ (runTerms fetch now preferences ts st).events, ∃ v, e = Event.error v := by
  intro ts
  induction ts with
  | nil =>
    intro st h
    exact h
  | cons t rest ih =>
    intro st h
    rcases hf : fetch t.value with e | listings
    · rw [show runTerms fetch now preferences (t :: rest) st
          = runTerms fetch now preferences rest
              { st with events := st.events ++ [Event.error t.value],
                        fetched := st.fetched ++ [t.value] } from by
        simp only [runTerms]
        rw [hf]
        try rfl]
      apply ih
      intro ev hev
      rcases List.mem_append.1 hev with hev' | hev'
      · exact h ev hev'
      · exact ⟨t.value, List.mem_singleton.1 hev'⟩
    · rw [show runTerms fetch now preferences (t :: rest) st
          = runTerms fetch now preferences rest
              { st with
                  db := (processListings now preferences st.db listings st.news).1,
                  news := (processListings now preferences st.db listings st.news).2,
                  fetched := st.fetched ++ [t.value] } from by
        simp only [runTerms]
        rw [hf]
        try rfl]
      exact ih _ h

theorem runTerms_fetched (fetch : List Nat → Except Unit (List VinylListing)) (now : Nat)
    (preferences : List UserPreferenceRecord) :
    ∀ (ts : List UserPreferenceRecord) (st : PassState),
      (runTerms fetch now preferences ts st).fetched
        = st.fetched ++ ts.map (fun t => t.value) := by
  intro ts
  induction ts with
  | nil =>
    intro st
    simp [runTerms]
  | cons t rest ih =>
    intro st
    rcases hf : fetch t.value with e | listings
    · rw [show runTerms fetch now preferences (t :: rest) st
          = runTerms fetch now preferences rest
              { st with events := st.events ++ [Event.error t.value],
                        fetched := st.fetched ++ [t.value] } from by
        simp only [runTerms]
        rw [hf]
        try rfl]
      rw [ih]
      simp
    · rw [show runTerms fetch now preferences (t :: rest) st
          = runTerms fetch now preferences rest
              { st with
                  db := (processListings now preferences st.db listings st.news).1,
                  news := (processListings now preferences st.db listings st.news).2,
                  fetched := st.fetched ++ [t.value] } from by
        simp only [runTerms]
        rw [hf]
        try rfl]
      rw [ih]
      simp

theorem runTerms_append (fetch : List Nat → Except Unit (List VinylListing)) (now : Nat)
    (preferences : List UserPreferenceRecord) :
    ∀ (ts₁ ts₂ : List UserPreferenceRecord) (st : PassState),
      runTerms fetch now preferences (ts₁ ++ ts₂) st
        = runTerms fetch now preferences ts₂ (runTerms fetch now preferences ts₁ st) := by
  intro ts₁
  induction ts₁ with
  | nil =>
    intro ts₂ st
    rfl
  | cons t rest ih =>
    intro ts₂ st
    rw [show (t :: rest) ++ ts₂ = t :: (rest ++ ts₂) from rfl]
    rcases hf : fetch t.value with e | listings
    · rw [show runTerms fetch now preferences (t :: (rest ++ ts₂)) st
          = runTerms fetch now preferences (rest ++ ts₂)
              { st with events := st.events ++ [Event.error t.value],
                        fetched := st.fetched ++ [t.value] } from by
        simp only [runTerms]
        rw [hf]
        try rfl]
      rw [show runTerms fetch now preferences (t :: rest) st
          = runTerms fetch now preferences rest
              { st with events := st.events ++ [Event.error t.value],
                        fetched := st.fetched ++ [t.value] } from by
        simp only [runTerms]
        rw [hf]
        try rfl]
      exact ih ts₂ _
    · rw [show runTerms fetch now preferences (t :: (rest ++ ts₂)) st
          = runTerms fetch now preferences (rest ++ ts₂)
              { st with
                  db := (processListings now preferences st.db listings st.news).1,
                  news := (processListings now preferences st.db listings st.news).2,
                  fetched := st.fetched ++ [t.value] } from by
        simp only [runTerms]
        rw [hf]
        try rfl]
      rw [show runTerms fetch now preferences (t :: rest) st
          = runTerms fetch now preferences rest
              { st with
                  db := (processListings now preferences st.db listings st.news).1,
                  news := (processListings now preferences st.db listings st.news).2,
                  fetched := st.fetched ++ [t.value] } from by
        simp only [runTerms]
        rw [hf]
        try rfl]
      exact ih ts₂ _

/-- **C5 (counterexample).** A pass that finds no new listings never calls
`sendBatchNotification`: the batch is handed to the notifier zero times, not
"exactly once per pass". -/
theorem claim_C5_counterexample :
    (scrapeVinyl fetchNone 0 dbPF).events = []
    ∧ ¬((scrapeVinyl fetchNone 0 dbPF).events.countP isBatchEvent = 1) := by decide

/-- **C5 (amended).** All New listings of a pass are accumulated into one
sequence in discovery order and that sequence is handed to the notifier as a
single batch event — exactly once, as the final event of the pass, when the
sequence is nonempty, and not at all when it is empty. -/
theorem claim_C5_amended (fetch : List Nat → Except Unit (List VinylListing))
    (now : Nat) (db : DB) :
    ((scrapeVinyl fetch now db).events.countP isBatchEvent
        = if (scrapeVinyl fetch now db).news = [] then 0 else 1)
    ∧ (∀ ls, Event.batch ls ∈ (scrapeVinyl fetch now db).events →
        ls = (scrapeVinyl fetch now db).news)
    ∧ ((scrapeVinyl fetch now db).news ≠ [] →
        (scrapeVinyl fetch now db).events.getLast?
          = some (Event.batch (scrapeVinyl fetch now db).news)) := by
  have herr := runTerms_events_error_only fetch now db.preferences
    (db.preferences.filter fun p => decide (p.type = PrefType.artist))
    ⟨db, [], [], []⟩ (by intro e he; cases he)
  set st := runTerms fetch now db.preferences
    (db.preferences.filter fun p => decide (p.type = PrefType.artist)) ⟨db, [], [], []⟩
    with hst
  have hnb : ∀ ls, Event.batch ls ∉ st.events := by
    intro ls hmem
    rcases herr _ hmem with ⟨v, hv⟩
    exact Event.noConfusion hv
  have hcount : st.events.countP isBatchEvent = 0 := by
    rw [List.countP_eq_zero]
    intro e he
    rcases herr e he with ⟨v, rfl⟩
    simp [isBatchEvent]
  have hG : scrapeVinyl fetch now db
      = if 0 < st.news.length then
          { st with events := st.events ++ [Event.batch st.news] }
        else st := rfl
  rw [hG]
  by_cases hn : st.news = []
  · rw [if_neg (by simp [hn])]
    refine ⟨by simp [hn, hcount], ?_, ?_⟩
    · intro ls hmem
      exact absurd hmem (hnb ls)
    · intro hne
      exact absurd hn hne
  · rw [if_pos (by simpa [List.length_pos] using hn)]
    refine ⟨?_, ?_, ?_⟩
    · rw [show ({ st with events := st.events ++ [Event.batch st.news] } : PassState).events
          = st.events ++ [Event.batch st.news] from rfl]
      rw [show ({ st with events := st.events ++ [Event.batch st.news] } : PassState).news
          = st.news from rfl]
      rw [List.countP_append, hcount, if_neg hn]
      simp [isBatchEvent]
    · intro ls hmem
      rw [show ({ st with events := st.events ++ [Event.batch st.news] } : PassState).events
          = st.events ++ [Event.batch st.news] from rfl] at hmem
      rcases List.mem_append.1 hmem with hmem' | hmem'
      · exact absurd hmem' (hnb ls)
      · have := List.mem_singleton.1 hmem'
        have hls : ls = st.news := by
          injection this
        rw [hls]
    · intro _
      rw [show ({ st with events := st.events ++ [Event.batch st.news] } : PassState).events
          = st.events ++ [Event.batch st.news] from rfl]
      exact List.getLast?_concat _

/-- Witness for the amended C5: a pass with one new listing ends with the
batch event carrying it. -/
theorem claim_C5_amended_witness :
    (scrapeVinyl fetchWall 2 dbPF).events.getLast?
      = some (Event.batch (scrapeVinyl fetchWall 2 dbPF).news) :=
  (claim_C5_amended fetchWall 2 dbPF).2.2 (by decide)

/-- **C7.** A fetch failure for one preference term is reported on the
notifier error channel and the pass carries on: store, new-listings batch
and end-of-pass notification are exactly those of the pass with the failing
term dropped, with one error event inserted. -/
theorem claim_C7_fetch_failure (fetch : List Nat → Except Unit (List VinylListing))
    (now : Nat) (db : DB) (pre post : List UserPreferenceRecord)
    (t : UserPreferenceRecord) (he : fetch t.value = Except.error ()) :
    (runPass fetch now db (pre ++ t :: post)).db = (runPass fetch now db (pre ++ post)).db
    ∧ (runPass fetch now db (pre ++ t :: post)).news
        = (runPass fetch now db (pre ++ post)).news
    ∧ ∃ e₁ e₂,
        (runPass fetch now db (pre ++ t :: post)).events = e₁ ++ Event.error t.value :: e₂
        ∧ (runPass fetch now db (pre ++ post)).events = e₁ ++ e₂ := by
  set s₁ := runTerms fetch now db.preferences pre ⟨db, [], [], []⟩ with hs₁
  have hfail : runTerms fetch now db.preferences (pre ++ t :: post) ⟨db, [], [], []⟩
      = runTerms fetch now db.preferences post
          { s₁ with
              events := s₁.events ++ [Event.error t.value],
              fetched := s₁.fetched ++ [t.value] } := by
    rw [runTerms_append fetch now db.preferences pre (t :: post), ← hs₁]
    simp only [runTerms]
    rw [he]
  have hskip : runTerms fetch now db.preferences (pre ++ post) ⟨db, [], [], []⟩
      = runTerms fetch now db.preferences post s₁ := by
    rw [runTerms_append fetch now db.preferences pre post, ← hs₁]
  set r := runTerms fetch now db.preferences post ⟨s₁.db, s₁.news, [], []⟩ with hr
  have hA : runTerms fetch now db.preferences post
      { s₁ with
          events := s₁.events ++ [Event.error t.value],
          fetched := s₁.fetched ++ [t.value] }
      = ⟨r.db, r.news, (s₁.events ++ [Event.error t.value]) ++ r.events,
         (s₁.fetched ++ [t.value]) ++ r.fetched⟩ := by
    rw [runTerms_acc fetch now db.preferences post]
  have hB : runTerms fetch now db.preferences post s₁
      = ⟨r.db, r.news, s₁.events ++ r.events, s₁.fetched ++ r.fetched⟩ := by
    rw [runTerms_acc fetch now db.preferences post s₁]
  simp only [runPass]
  rw [hfail, hskip, hA, hB]
  by_cases hn : 0 < r.news.length
  · rw [if_pos (by simpa using hn), if_pos (by simpa using hn)]
    exact ⟨rfl, rfl, s₁.events, r.events ++ [Event.batch r.news], by simp, by simp⟩
  · rw [if_neg (by simpa using hn), if_neg (by simpa using hn)]
    exact ⟨rfl, rfl, s₁.events, r.events, by simp, rfl⟩

/-- Witness for C7: the "pink floyd" term fails, the "the beatles" term still
runs and the pass still delivers its batch. -/
theorem claim_C7_fetch_failure_witness :
    (runPass fetchFailPF 8 dbTwoArtists ([] ++ prefPinkFloyd :: [prefBeatles])).db
        = (runPass fetchFailPF 8 dbTwoArtists ([] ++ [prefBeatles])).db
    ∧ (runPass fetchFailPF 8 dbTwoArtists ([] ++ prefPinkFloyd :: [prefBeatles])).news
        = (runPass fetchFailPF 8 dbTwoArtists ([] ++ [prefBeatles])).news
    ∧ ∃ e₁ e₂,
        (runPass fetchFailPF 8 dbTwoArtists ([] ++ prefPinkFloyd :: [prefBeatles])).events
          = e₁ ++ Event.error prefPinkFloyd.value :: e₂
        ∧ (runPass fetchFailPF 8 dbTwoArtists ([] ++ [prefBeatles])).events = e₁ ++ e₂ :=
  claim_C7_fetch_failure fetchFailPF 8 dbTwoArtists [] [prefBeatles] prefPinkFloyd (by rfl)

/-- **C10.** Only preference terms of type `artist` trigger a marketplace
fetch (one fetch per artist term, in order); a store without artist terms
yields a pass with zero fetches, zero outcomes and zero events. -/
theorem claim_C10_artist_terms_only (fetch : List Nat → Except Unit (List VinylListing))
    (now : Nat) (db : DB) :
    ((scrapeVinyl fetch now db).fetched
        = (db.preferences.filter fun p => decide (p.type = PrefType.artist)).map
            (fun p => p.value))
    ∧ ((db.preferences.filter fun p => decide (p.type = PrefType.artist)) = [] →
        scrapeVinyl fetch now db = ⟨db, [], [], []⟩) := by
  constructor
  · simp only [scrapeVinyl, runPass]
    split
    · rw [show ∀ st : PassState, ({ st with events := st.events ++ [Event.batch st.news] }
          : PassState).fetched = st.fetched from fun _ => rfl]
      rw [runTerms_fetched]
      simp
    · rw [runTerms_fetched]
      simp
  · intro h
    simp [scrapeVinyl, runPass, h, runTerms]

/-- Witness for C10: a genre-only preference store produces an untouched
pass. -/
theorem claim_C10_artist_terms_only_witness :
    scrapeVinyl fetchWall 6 dbGenreOnly = ⟨dbGenreOnly, [], [], []⟩ :=
  (claim_C10_artist_terms_only fetchWall 6 dbGenreOnly).2 (by decide)

/-- **C8.** `normalizeString` is total (in particular on the empty string)
and idempotent: trimming, lowercasing and whitespace-collapsing a string that
has already been normalized changes nothing. -/
theorem claim_C8_normalize_idempotent (x : List Nat) :
    normalizeString (normalizeString x) = normalizeString x ∧ normalizeString [] = [] :=
  ⟨normalizeString_idem x, rfl⟩

/-! ### The identity key (claim C4) -/

theorem b64Char_inj {m n : Nat} (hm : m < 64) (hn : n < 64) (h : b64Char m = b64Char n) :
    m = n := by
  simp only [b64Char] at h
  split_ifs at h <;> omega

theorem b64Char_ne_61 (n : Nat) : b64Char n ≠ 61 := by
  simp only [b64Char]
  split_ifs <;> omega

theorem base64Encode_inj : ∀ (a b : List Nat), (∀ x ∈ a, x < 256) → (∀ x ∈ b, x < 256) →
    base64Encode a = base64Encode b → a = b
  | [], [], _, _, _ => rfl
  | [], [_], _, _, h => by simp [base64Encode] at h
  | [], [_, _], _, _, h => by simp [base64Encode] at h
  | [], _ :: _ :: _ :: _, _, _, h => by simp [base64Encode] at h
  | [_], [], _, _, h => by simp [base64Encode] at h
  | [x], [y], ha, hb, h => by
    have hx : x < 256 := ha x (by simp)
    have hy : y < 256 := hb y (by simp)
    simp only [base64Encode, List.cons.injEq, and_true] at h
    have e₁ := b64Char_inj (by omega) (by omega) h.1
    have e₂ := b64Char_inj (by omega) (by omega) h.2
    have : x = y := by omega
    rw [this]
  | [x], [y₁, y₂], ha, hb, h => by
    simp only [base64Encode, List.cons.injEq, and_true] at h
    exact absurd h.2.2.symm (b64Char_ne_61 _)
  | [x], y₁ :: y₂ :: y₃ :: ys, ha, hb, h => by
    simp only [base64Encode, List.cons.injEq] at h
    exact absurd h.2.2.1.symm (b64Char_ne_61 _)
  | [_, _], [], _, _, h => by simp [base64Encode] at h
  | [x₁, x₂], [y], ha, hb, h => by
    simp only [base64Encode, List.cons.injEq, and_true] at h
    exact absurd h.2.2 (b64Char_ne_61 _)
  | [x₁, x₂], [y₁, y₂], ha, hb, h => by
    have hx₁ : x₁ < 256 := ha x₁ (by simp)
    have hx₂ : x₂ < 256 := ha x₂ (by simp)
    have hy₁ : y₁ < 256 := hb y₁ (by simp)
    have hy₂ : y₂ < 256 := hb y₂ (by simp)
    simp only [base64Encode, List.cons.injEq, and_true] at h
    have e₁ := b64Char_inj (by omega) (by omega) h.1
    have e₂ := b64Char_inj (by omega) (by omega) h.2.1
    have e₃ := b64Char_inj (by omega) (by omega) h.2.2
    have hx : x₁ = y₁ := by omega
    have hy : x₂ = y₂ := by omega
    rw [hx, hy]
  | [x₁, x₂], y₁ :: y₂ :: y₃ :: ys, ha, hb, h => by
    simp only [base64Encode, List.cons.injEq] at h
    exact absurd h.2.2.2.1.symm (b64Char_ne_61 _)
  | _ :: _ :: _ :: _, [], _, _, h => by simp [base64Encode] at h
  | x₁ :: x₂ :: x₃ :: xs, [y], ha, hb, h => by
    simp only [base64Encode, List.cons.injEq] at h
    exact absurd h.2.2.1 (b64Char_ne_61 _)
  | x₁ :: x₂ :: x₃ :: xs, [y₁, y₂], ha, hb, h => by
    simp only [base64Encode, List.cons.injEq] at h
    exact absurd h.2.2.2.1 (b64Char_ne_61 _)
  | x₁ :: x₂ :: x₃ :: xs, y₁ :: y₂ :: y₃ :: ys, ha, hb, h => by
    have hx₁ : x₁ < 256 := ha x₁ (by simp)
    have hx₂ : x₂ < 256 := ha x₂ (by simp)
    have hx₃ : x₃ < 256 := ha x₃ (by simp)
    have hy₁ : y₁ < 256 := hb y₁ (by simp)
    have hy₂ : y₂ < 256 := hb y₂ (by simp)
    have hy₃ : y₃ < 256 := hb y₃ (by simp)
    simp only [base64Encode, List.cons.injEq] at h
    have e₁ := b64Char_inj (by omega) (by omega) h.1
    have e₂ := b64Char_inj (by omega) (by omega) h.2.1
    have e₃ := b64Char_inj (by omega) (by omega) h.2.2.1
    have e₄ := b64Char_inj (by omega) (by omega) h.2.2.2.1
    have hrest : xs = ys := base64Encode_inj xs ys
      (fun z hz => ha z (by simp [hz])) (fun z hz => hb z (by simp [hz])) h.2.2.2.2
    simp only [List.cons.injEq]
    exact ⟨by omega, by omega, by omega, hrest⟩

theorem utf8Char_ne_nil (n : Nat) : utf8Char n ≠ [] := by
  simp only [utf8Char]
  split_ifs <;> simp

theorem utf8Char_inj {m n : Nat} (h : utf8Char m = utf8Char n) : m = n := by
  simp only [utf8Char] at h
  split_ifs at h <;> simp_all [List.cons.injEq] <;> omega

theorem utf8Char_bytes_lt {n : Nat} (hn : n < 1114112) : ∀ c ∈ utf8Char n, c < 256 := by
  simp only [utf8Char]
  split_ifs <;> intro c hc <;> simp at hc <;> omega

theorem utf8Char_head_length {m n : Nat} (hm : m < 1114112) (hn : n < 1114112)
    (h : (utf8Char m).head? = (utf8Char n).head?) :
    (utf8Char m).length = (utf8Char n).length := by
  simp only [utf8Char] at h ⊢
  split_ifs at h ⊢ <;> simp_all <;> omega

theorem utf8Bytes_inj : ∀ (a b : List Nat), validCodes a → validCodes b →
    utf8Bytes a = utf8Bytes b → a = b
  | [], [], _, _, _ => rfl
  | [], y :: ys, _, _, h => by
    rw [show utf8Bytes (y :: ys) = utf8Char y ++ utf8Bytes ys from rfl,
        show utf8Bytes ([] : List Nat) = [] from rfl] at h
    rcases hcons : utf8Char y with _ | ⟨c, cs⟩
    · exact absurd hcons (utf8Char_ne_nil y)
    · rw [hcons] at h
      simp at h
  | x :: xs, [], _, _, h => by
    rw [show utf8Bytes (x :: xs) = utf8Char x ++ utf8Bytes xs from rfl,
        show utf8Bytes ([] : List Nat) = [] from rfl] at h
    rcases hcons : utf8Char x with _ | ⟨c, cs⟩
    · exact absurd hcons (utf8Char_ne_nil x)
    · rw [hcons] at h
      simp at h
  | x :: xs, y :: ys, ha, hb, h => by
    rw [show utf8Bytes (x :: xs) = utf8Char x ++ utf8Bytes xs from rfl,
        show utf8Bytes (y :: ys) = utf8Char y ++ utf8Bytes ys from rfl] at h
    have hx : x < 1114112 := ha x (by simp)
    have hy : y < 1114112 := hb y (by simp)
    have hhead : (utf8Char x).head? = (utf8Char y).head? := by
      rcases hcx : utf8Char x with _ | ⟨c, cs⟩
      · exact absurd hcx (utf8Char_ne_nil x)
      rcases hcy : utf8Char y with _ | ⟨d, ds⟩
      · exact absurd hcy (utf8Char_ne_nil y)
      rw [hcx, hcy] at h
      simp only [List.cons_append, List.cons.injEq] at h
      simp [h.1]
    have hlen := utf8Char_head_length hx hy hhead
    rcases List.append_inj h hlen with ⟨h₁, h₂⟩
    have hxy := utf8Char_inj h₁
    subst hxy
    have hrest := utf8Bytes_inj xs ys (fun c hc => ha c (by simp [hc]))
      (fun c hc => hb c (by simp [hc])) h₂
    rw [hrest]

theorem utf8Bytes_bytes_lt {s : List Nat} (hs : validCodes s) :
    ∀ c ∈ utf8Bytes s, c < 256 := by
  intro c hc
  rcases List.mem_flatMap.1 hc with ⟨n, hn, hcn⟩
  exact utf8Char_bytes_lt (hs n hn) c hcn

theorem validCodes_append {l₁ l₂ : List Nat} (h₁ : validCodes l₁) (h₂ : validCodes l₂) :
    validCodes (l₁ ++ l₂) := by
  intro c hc
  rcases List.mem_append.1 hc with h | h
  · exact h₁ c h
  · exact h₂ c h

theorem validCodes_cons {c : Nat} {l : List Nat} (hc : c < 1114112) (hl : validCodes l) :
    validCodes (c :: l) := by
  intro d hd
  rcases List.mem_cons.1 hd with rfl | hd'
  · exact hc
  · exact hl d hd'

theorem jsLower_lt {n : Nat} (h : n < 1114112) : jsLower n < 1114112 := by
  simp only [jsLower]
  split <;> omega

theorem mem_jsTrim {c : Nat} {s : List Nat} (h : c ∈ jsTrim s) : c ∈ s := by
  unfold jsTrim at h
  rw [List.mem_reverse] at h
  have h₂ : c ∈ (s.dropWhile isWs).reverse := (List.dropWhile_sublist _).subset h
  rw [List.mem_reverse] at h₂
  exact (List.dropWhile_sublist _).subset h₂

theorem validCodes_normalizeString {s : List Nat} (h : validCodes s) :
    validCodes (normalizeString s) := by
  intro c hc
  rcases mem_collapseWs hc with rfl | hm
  · omega
  · rcases List.mem_map.1 hm with ⟨d, hd, rfl⟩
    exact jsLower_lt (h d (mem_jsTrim hd))

theorem char_toNat_lt (c : Char) : c.toNat < 1114112 := by
  rcases c.valid with h | ⟨_, h⟩
  · exact Nat.lt_trans h (by omega)
  · exact h

theorem validCodes_natCodes (p : Nat) : validCodes (natCodes p) := by
  intro c hc
  rcases List.mem_map.1 hc with ⟨ch, _, rfl⟩
  exact char_toNat_lt ch

theorem createUniqueKey_eq_iff {s₁ s₂ t₁ t₂ : List Nat} {p q : Nat}
    (hs₁ : validCodes s₁) (hs₂ : validCodes s₂) (ht₁ : validCodes t₁) (ht₂ : validCodes t₂) :
    createUniqueKey s₁ p t₁ = createUniqueKey s₂ q t₂ ↔
      normalizeString s₁ ++ [45] ++ natCodes p ++ [45] ++ normalizeString t₁
        = normalizeString s₂ ++ [45] ++ natCodes q ++ [45] ++ normalizeString t₂ := by
  have h45 : validCodes [45] := by
    intro c hc
    rw [List.mem_singleton] at hc
    omega
  have hv₁ : validCodes
      (normalizeString s₁ ++ [45] ++ natCodes p ++ [45] ++ normalizeString t₁) :=
    validCodes_append (validCodes_append (validCodes_append
      (validCodes_append (validCodes_normalizeString hs₁) h45)
      (validCodes_natCodes p)) h45) (validCodes_normalizeString ht₁)
  have hv₂ : validCodes
      (normalizeString s₂ ++ [45] ++ natCodes q ++ [45] ++ normalizeString t₂) :=
    validCodes_append (validCodes_append (validCodes_append
      (validCodes_append (validCodes_normalizeString hs₂) h45)
      (validCodes_natCodes q)) h45) (validCodes_normalizeString ht₂)
  constructor
  · intro h
    have h₂ := base64Encode_inj _ _ (utf8Bytes_bytes_lt hv₁) (utf8Bytes_bytes_lt hv₂) h
    exact utf8Bytes_inj _ _ hv₁ hv₂ h₂
  · intro h
    unfold createUniqueKey
    rw [h]

/-- **C4 (counterexample).** Two pairs with distinct normalized sellers and
distinct normalized titles that collide: the dash-joined intermediate strings
`"a-1-b-1-c"` coincide, so the keys are equal although normalization does not
collapse either component (seller `"a"` vs `"a-1-b"`, title `"b-1-c"` vs
`"c"`, price 1). -/
theorem claim_C4_counterexample :
    createUniqueKey [97] 1 [98, 45, 49, 45, 99] = createUniqueKey [97, 45, 49, 45, 98] 1 [99]
    ∧ normalizeString [97] ≠ normalizeString [97, 45, 49, 45, 98]
    ∧ normalizeString [98, 45, 49, 45, 99] ≠ normalizeString [99] := by decide

/-- **C4 (amended).** `createUniqueKey` is deterministic (it is a pure
function of its arguments), and changing ONE of seller or title while the
other two inputs stay fixed yields the same key exactly when normalization
maps the changed component to the same string; joint changes of seller and
title can collide because the dash-joined concatenation is ambiguous. -/
theorem claim_C4_amended (s₁ s₂ t₁ t₂ : List Nat) (p : Nat)
    (hs₁ : validCodes s₁) (hs₂ : validCodes s₂) (ht₁ : validCodes t₁)
    (ht₂ : validCodes t₂) :
    (createUniqueKey s₁ p t₁ = createUniqueKey s₂ p t₁ ↔
        normalizeString s₁ = normalizeString s₂)
    ∧ (createUniqueKey s₁ p t₁ = createUniqueKey s₁ p t₂ ↔
        normalizeString t₁ = normalizeString t₂) := by
  constructor
  · rw [createUniqueKey_eq_iff hs₁ hs₂ ht₁ ht₁]
    constructor
    · intro h
      have h₁ := List.append_cancel_right h
      have h₂ := List.append_cancel_right h₁
      have h₃ := List.append_cancel_right h₂
      exact List.append_cancel_right h₃
    · intro h
      rw [h]
  · rw [createUniqueKey_eq_iff hs₁ hs₁ ht₁ ht₂]
    constructor
    · intro h
      exact List.append_cancel_left h
    · intro h
      rw [h]

/-- Witness for the amended C4: sellers `"a"` and `"A"` normalize equal, so
the keys agree at price 5 and title `"c"`. -/
theorem claim_C4_amended_witness :
    createUniqueKey [97] 5 [99] = createUniqueKey [65] 5 [99] :=
  (claim_C4_amended [97] [65] [99] [99] 5 (by decide) (by decide) (by decide)
    (by decide)).1.mpr (by decide)

end VinylScraper
